import Mathlib

/-!
Verification of the SS-IL / DER incremental-learning core: the growable
multi-branch residual network (`networks/resnet18.py`), the model factory
dispatch (`networks/model_factory.py`), and the DER incremental trainer
(`trainer/der.py`).  Tensors are modelled as flat lists of scalars; external
layer modules (convolutions, batch norms, downsampling projections) are
modelled as abstract functions on such tensors, since only their composition
is at issue here.  Exact arithmetic stands in for floating point: integers
for the network plumbing, reals for the loss and norm computations.
-/

/-! ## Residual block (`BasicBlock` in `networks/resnet18.py`)

A feature map is a flat `List ℤ`; `reluT` is the element-wise rectifier and
`addT` the element-wise sum used by `out += identity`. -/

def reluT (t : List ℤ) : List ℤ :=
  t.map fun a => max a 0

def addT (a b : List ℤ) : List ℤ :=
  List.zipWith (fun x y => x + y) a b

structure Block where
  conv1 : List ℤ → List ℤ
  bn1 : List ℤ → List ℤ
  conv2 : List ℤ → List ℤ
  bn2 : List ℤ → List ℤ
  downsample : Option (List ℤ → List ℤ)
  use_last_relu : Bool

/-- Constructor `BasicBlock.__init__`: validates the configuration eagerly, raising
`ValueError` for `groups != 1 or base_width != 64` and `NotImplementedError`
for `dilation > 1`, and only then assembles the block from its freshly
constructed layers (passed here as the function arguments `conv1 bn1 conv2
bn2 downsample`, standing for the modules `conv3x3`/`norm_layer` create). -/
def basicBlockInit (inplanes planes stride groups base_width dilation : ℕ)
    (use_last_relu : Bool)
    (conv1 bn1 conv2 bn2 : List ℤ → List ℤ)
    (downsample : Option (List ℤ → List ℤ)) : Except String Block :=
  if groups ≠ 1 ∨ base_width ≠ 64 then
    Except.error "BasicBlock only supports groups=1 and base_width=64"
  else if 1 < dilation then
    Except.error "Dilation > 1 not supported in BasicBlock"
  else
    Except.ok
      { conv1 := conv1, bn1 := bn1, conv2 := conv2, bn2 := bn2
        downsample := downsample, use_last_relu := use_last_relu }

/-- Method `BasicBlock.forward`, line by line: main path `conv1 → bn1 → relu →
conv2 → bn2`; `identity` is `x`, replaced by `downsample(x)` when a
downsampling projection is configured; `out += identity`; final `relu`
only when `use_last_relu` holds. -/
def blockForward (b : Block) (x : List ℤ) : List ℤ :=
  let out1 := reluT (b.bn1 (b.conv1 x))
  let out2 := b.bn2 (b.conv2 out1)
  let identity :=
    match b.downsample with
    | none => x
    | some d => d x
  let summed := addT out2 identity
  if b.use_last_relu then reluT summed else summed

/-- The residual-block contract as the specification words it: the main path,
the skip path (identity when no projection is configured, otherwise the
projection applied to `x`), their element-wise sum, and the final activation
applied exactly when it is not suppressed. -/
def mainPath (b : Block) (x : List ℤ) : List ℤ :=
  b.bn2 (b.conv2 (reluT (b.bn1 (b.conv1 x))))

def skipPath (b : Block) (x : List ℤ) : List ℤ :=
  match b.downsample with
  | none => x
  | some d => d x

def blockForwardSpec (b : Block) (x : List ℤ) : List ℤ :=
  if b.use_last_relu then reluT (addT (mainPath b x) (skipPath b x))
  else addT (mainPath b x) (skipPath b x)

/-! ## Multi-branch forward (`ResNet.forward`, `trainer == 'der'` branch)

A head is `nn.Linear(512, num_outputs)`: a weight matrix (one row per output
class) and a bias vector; `outFeatures` records the `num_outputs` the head
was configured with. -/

def dotZ (r v : List ℤ) : ℤ :=
  (List.zipWith (fun a b => a * b) r v).sum

structure Lin where
  outFeatures : ℕ
  weight : List (List ℤ)
  bias : List ℤ

def linApply (l : Lin) (v : List ℤ) : List ℤ :=
  List.zipWith (fun row b => dotZ row v + b) l.weight l.bias

/-- The `for i, encoder in enumerate(self.encoders)` loop of the der-mode
forward pass: each encoder is run on the same input, its feature vector is
fed to `self.heads[i]`, and a missing head (`IndexError`) yields `none`. -/
def derLogits (encoders : List (List ℤ → List ℤ)) (heads : List Lin)
    (i : ℕ) (x : List ℤ) : Option (List (List ℤ)) :=
  match encoders with
  | [] => some []
  | e :: es =>
    match heads[i]? with
    | none => none
    | some h => (derLogits es heads (i + 1) x).map fun rest => linApply h (e x) :: rest

/-- Method `ResNet.forward` in der mode: `x = torch.concat(logits, dim=1)`. -/
def derForward (encoders : List (List ℤ → List ℤ)) (heads : List Lin)
    (x : List ℤ) : Option (List ℤ) :=
  (derLogits encoders heads 0 x).map List.flatten

/-! ## Ensemble growth and freezing (`ResNet.add_encoder`, `ResNet.add_head`)

Only the flags the freezing claims are about are retained: one
`requires_grad` flag per parameter tensor and the module `training` flag. -/

structure EncoderM where
  grads : List Bool
  training : Bool
deriving DecidableEq

structure HeadM where
  numOutputs : ℕ
  wGrad : Bool
  bGrad : Bool
  training : Bool
deriving DecidableEq

structure NetState where
  encoder : EncoderM
  encoders : List EncoderM
  heads : List HeadM
deriving DecidableEq

/-- Freezing: `encoder.eval()` plus `param.requires_grad = False` on every parameter. -/
def freezeEncoder (e : EncoderM) : EncoderM :=
  { grads := e.grads.map fun _ => false, training := false }

/-- Method `ResNet.add_encoder`: on the first call the initially built backbone is
appended as branch 0; afterwards every stored encoder is set to eval with
gradients disabled, and only then is `self.encoders[-1]` deep-copied (the
copy therefore carries the flags the freezing loop just wrote) and appended. -/
def add_encoder (st : NetState) : NetState :=
  match st.encoders with
  | [] => { st with encoders := [st.encoder] }
  | e :: es =>
    let frozen := (e :: es).map freezeEncoder
    { st with encoders := frozen ++ [frozen.getLastD (freezeEncoder e)] }

def freezeHead (h : HeadM) : HeadM :=
  { h with wGrad := false, bGrad := false, training := false }

/-- Method `ResNet.add_head`: freezes every existing head, then appends a fresh
`nn.Linear(512, num_outputs)` whose weight and bias require gradients and
whose module is in training mode. -/
def add_head (st : NetState) (numOutputs : ℕ) : NetState :=
  { st with
    heads := st.heads.map freezeHead ++
      [{ numOutputs := numOutputs, wGrad := true, bGrad := true, training := true }] }

/-- A freshly constructed der-mode `ResNet`: `self.encoder` built with all
parameters requiring gradients and in training mode, `self.encoders` and
`self.heads` empty. -/
def freshNet (e : EncoderM) : NetState :=
  { encoder := e, encoders := [], heads := [] }

def demoEncoder : EncoderM :=
  { grads := [true, true], training := true }

/-! ## Model factory (`networks/model_factory.py`) -/

inductive ModelDesc
  | wrn (numClasses : ℕ)
  | resnet18 (numClasses : ℕ) (trainerMode : String)
  | resnet32 (numClasses : ℕ) (trainerMode : String)
deriving DecidableEq

/-- Dispatch `ModelFactory.get_model`: the dataset dispatch chain; a dataset matching
no arm falls off the end of the Python function, which returns `None`. -/
def get_model (dataset trainerMode : String) : Option ModelDesc :=
  if dataset = "Cifar100" then
    if trainerMode = "wild" ∨ trainerMode = "wild_exp" then some (ModelDesc.wrn 100)
    else some (ModelDesc.resnet18 100 trainerMode)
  else if dataset = "Cifar10" then
    some (ModelDesc.resnet32 10 trainerMode)
  else if dataset = "Imagenet" ∨ dataset = "VggFace2_1K" ∨ dataset = "Google_Landmark_v2_1K" then
    some (ModelDesc.resnet18 1000 trainerMode)
  else if dataset = "VggFace2_5K" then
    some (ModelDesc.resnet18 5000 trainerMode)
  else if dataset = "Google_Landmark_v2_10K" then
    some (ModelDesc.resnet18 10000 trainerMode)
  else
    none

def recognizedDatasets : List String :=
  ["Cifar100", "Cifar10", "Imagenet", "VggFace2_1K", "Google_Landmark_v2_1K",
   "VggFace2_5K", "Google_Landmark_v2_10K"]

/-! ## Incremental trainer (`trainer/der.py`)

A batch is a list of `(logit row, label)` pairs: pairing rows with labels
makes the boolean-mask selections `output[curr_mask]` / `target[curr_mask]`
a single `List.filter`.  `torch.nn.CrossEntropyLoss(reduction='mean')` on a
row is `log`-sum-`exp` of the logits minus the logit at the target index,
averaged over the batch. -/

noncomputable def nll (r : List ℝ) (t : ℕ) : ℝ :=
  Real.log ((r.map Real.exp).sum) - r.getD t 0

noncomputable def ceLoss (rows : List (List ℝ × ℕ)) : ℝ :=
  ((rows.map fun p => nll p.1 p.2).sum) / rows.length

/-- Column slice `[a, b)` of one logit row, as in `output[mask, a:b]`. -/
def sliceL (a b : ℕ) (r : List ℝ) : List ℝ :=
  (r.drop a).take (b - a)

/-- The per-batch loss of `Trainer.train`.  With `tasknum > 0` and the
separated-softmax flag `ss` set: current examples are those with label
`≥ mid`, their loss is taken on columns `[mid, endIdx)` against
`target % (endIdx - mid)` and weighted by their count; previous examples
(label `< mid`) contribute, only when present, the loss on columns
`[0, mid)` against the unmodified labels weighted by their count; the sum
is divided by the batch size.  Otherwise plain cross-entropy on columns
`[0, endIdx)`. -/
noncomputable def trainLoss (tasknum : ℕ) (ss : Bool) (mid endIdx : ℕ)
    (batch : List (List ℝ × ℕ)) : ℝ :=
  if 0 < tasknum ∧ ss = true then
    let curr := batch.filter fun p => decide (mid ≤ p.2)
    let prev := batch.filter fun p => decide (p.2 < mid)
    let currNum := curr.length
    let prevNum := prev.length
    let batchSize := currNum + prevNum
    let lossCECurr :=
      ceLoss (curr.map fun p => (sliceL mid endIdx p.1, p.2 % (endIdx - mid))) * (currNum : ℝ)
    let lossCEPrev :=
      if 0 < prevNum then
        ceLoss (prev.map fun p => (sliceL 0 mid p.1, p.2)) * (prevNum : ℝ)
      else 0
    (lossCECurr + lossCEPrev) / (batchSize : ℝ)
  else
    ceLoss (batch.map fun p => (sliceL 0 endIdx p.1, p.2))

/-- Selection `output[curr_mask]` paired with `target[curr_mask]`. -/
def currExamples (mid : ℕ) (batch : List (List ℝ × ℕ)) : List (List ℝ × ℕ) :=
  batch.filter fun p => decide (mid ≤ p.2)

/-- Selection `output[prev_mask]` paired with `target[prev_mask]`. -/
def prevExamples (mid : ℕ) (batch : List (List ℝ × ℕ)) : List (List ℝ × ℕ) :=
  batch.filter fun p => decide (p.2 < mid)

/-- Current-task rows as the code builds them: columns `[mid, endIdx)`,
labels remapped by `% (endIdx - mid)`. -/
def currRows (mid endIdx : ℕ) (batch : List (List ℝ × ℕ)) : List (List ℝ × ℕ) :=
  (currExamples mid batch).map fun p => (sliceL mid endIdx p.1, p.2 % (endIdx - mid))

/-- Previous-task rows: columns `[0, mid)`, labels unmodified. -/
def prevRows (mid : ℕ) (batch : List (List ℝ × ℕ)) : List (List ℝ × ℕ) :=
  (prevExamples mid batch).map fun p => (sliceL 0 mid p.1, p.2)

/-- The separated loss exactly as the specification words it: current-task
labels remapped by subtraction, `label - boundary`. -/
noncomputable def specSepLoss (mid endIdx : ℕ) (batch : List (List ℝ × ℕ)) : ℝ :=
  (((currExamples mid batch).length : ℝ) *
      ceLoss ((currExamples mid batch).map fun p => (sliceL mid endIdx p.1, p.2 - mid)) +
    ((prevExamples mid batch).length : ℝ) * ceLoss (prevRows mid batch)) /
    (((currExamples mid batch).length : ℝ) + ((prevExamples mid batch).length : ℝ))

/-- One current-task example for boundary 5, end 8: label 5, logits zero
except a 1 in the last current-task column. -/
noncomputable def cexBatch : List (List ℝ × ℕ) :=
  [([0, 0, 0, 0, 0, 0, 0, 1], 5)]

/-! ## Weight alignment (`Trainer.weight_align`)

`torch.norm(w, dim=1)` is the L2 norm of each row; `torch.mean` the average.
`gamma = mean_prev/mean_new` is Python float division, which raises
`ZeroDivisionError` when `mean_new` is zero — modelled as `Except.error`. -/

noncomputable def rowNorm (r : List ℝ) : ℝ :=
  Real.sqrt ((r.map fun x => x * x).sum)

noncomputable def meanR (l : List ℝ) : ℝ :=
  l.sum / l.length

/-- Quantity `mean_prev`: mean row norm of `weight[:start, :]`. -/
noncomputable def prevMean (w : List (List ℝ)) (start : ℕ) : ℝ :=
  meanR ((w.take start).map rowNorm)

/-- Quantity `mean_new`: mean row norm of `weight[start:end, :]`. -/
noncomputable def newMean (w : List (List ℝ)) (start endIdx : ℕ) : ℝ :=
  meanR (((w.drop start).take (endIdx - start)).map rowNorm)

open Classical in
/-- Method `Trainer.weight_align` on the fc weight matrix: `new = new * gamma`,
`result = torch.cat((prev, new))`, `weight[:end, :] = result`; rows at
index `endIdx` and beyond are never written.  When `mean_new` is zero the
computation of `gamma` raises before anything is written. -/
noncomputable def weightAlign (w : List (List ℝ)) (start endIdx : ℕ) :
    Except String (List (List ℝ)) :=
  if newMean w start endIdx = 0 then
    Except.error "ZeroDivisionError: float division by zero"
  else
    let gamma := prevMean w start / newMean w start endIdx
    Except.ok
      (w.take start ++
        ((w.drop start).take (endIdx - start)).map (fun r => r.map fun x => x * gamma) ++
        w.drop endIdx)

/-- The parameters `weight_align` can reach: the fc weight matrix it slices,
the fc bias, and all remaining model parameters. -/
structure ModelState where
  fcWeight : List (List ℝ)
  fcBias : List ℝ
  otherParams : List ℝ

/-- Method `weight_align` at the model level: `end` read from the loader,
`start = end - args.step_size`, and only `fc.weight.data` written back. -/
noncomputable def modelWeightAlign (m : ModelState) (endIdx stepSize : ℕ) :
    Except String ModelState :=
  (weightAlign m.fcWeight (endIdx - stepSize) endIdx).map fun w =>
    { m with fcWeight := w }

/-! ## Concrete instances used by the witnesses -/

def demoEnc1 : List ℤ → List ℤ := fun v => v

def demoEnc2 : List ℤ → List ℤ := fun v => v.map fun z => z + 1

def demoLin1 : Lin := { outFeatures := 1, weight := [[1, 0]], bias := [0] }

def demoLin2 : Lin := { outFeatures := 2, weight := [[0, 1], [1, 1]], bias := [1, 2] }

noncomputable def demoModel : ModelState :=
  { fcWeight := [[3], [4], [9]], fcBias := [5, 6], otherParams := [7] }

/-! ## Theorems -/

/-- C7: `BasicBlock.forward` computes the main path conv→norm→activation→
conv→norm, takes the skip path as the identity of `x` when no downsampling
projection is configured and otherwise as the projection applied to `x`,
sums the two paths element-wise, and applies the final activation to the
sum if and only if `use_last_relu` holds. -/
theorem basic_block_forward_paths (b : Block) (x : List ℤ) :
    blockForward b x = blockForwardSpec b x := by
  cases b with
  | mk c1 n1 c2 n2 ds ulr =>
    cases ds <;> cases ulr <;> rfl

/-- C6: constructing a `BasicBlock` with unsupported configuration —
`groups ≠ 1`, `base_width ≠ 64`, or `dilation > 1` — fails eagerly at
construction time with an error, and no block is produced. -/
theorem basic_block_rejects_bad_config
    (inplanes planes stride groups base_width dilation : ℕ) (use_last_relu : Bool)
    (conv1 bn1 conv2 bn2 : List ℤ → List ℤ) (downsample : Option (List ℤ → List ℤ))
    (h : groups ≠ 1 ∨ base_width ≠ 64 ∨ 1 < dilation) :
    ∃ msg, basicBlockInit inplanes planes stride groups base_width dilation
      use_last_relu conv1 bn1 conv2 bn2 downsample = Except.error msg := by
  unfold basicBlockInit
  by_cases h1 : groups ≠ 1 ∨ base_width ≠ 64
  · rw [if_pos h1]
    exact ⟨_, rfl⟩
  · rw [if_neg h1]
    have hd : 1 < dilation := by
      rcases h with h | h | h
      · exact absurd (Or.inl h) h1
      · exact absurd (Or.inr h) h1
      · exact h
    rw [if_pos hd]
    exact ⟨_, rfl⟩

theorem basic_block_rejects_bad_config_witness :
    ((2 : ℕ) ≠ 1 ∨ (64 : ℕ) ≠ 64 ∨ 1 < (1 : ℕ)) ∧
      ∃ msg, basicBlockInit 64 64 1 2 64 1 true id id id id none = Except.error msg :=
  ⟨Or.inl (by decide),
    basic_block_rejects_bad_config 64 64 1 2 64 1 true id id id id none (Or.inl (by decide))⟩

/-- C8: two consecutive `add_head` calls with no intervening `add_encoder`
are accepted (both calls are total, nothing is rejected) and, starting from
a fresh der model whose single branch was adopted by one `add_encoder`
call, yield an ensemble with 2 heads but only 1 branch. -/
theorem add_head_twice_accepted (e : EncoderM) (n1 n2 : ℕ) :
    (add_head (add_head (add_encoder (freshNet e)) n1) n2).heads.length = 2 ∧
    (add_head (add_head (add_encoder (freshNet e)) n1) n2).encoders.length = 1 := by
  simp [add_head, add_encoder, freshNet]

/-- C2: the code violates the claim.  After the second `add_encoder` call
the newest branch is itself frozen — all its `requires_grad` flags are
`False` and it is in eval mode — because the freezing loop runs over the
stored encoders before `self.encoders[-1]` is deep-copied, so the copy
inherits the frozen flags and no branch is left trainable. -/
theorem add_encoder_second_call_freezes_clone :
    ((add_encoder (add_encoder (freshNet demoEncoder))).encoders.map EncoderM.grads =
        [[false, false], [false, false]]) ∧
    ((add_encoder (add_encoder (freshNet demoEncoder))).encoders.map EncoderM.training =
        [false, false]) := by
  decide

/-- C10: `ModelFactory.get_model` returns no model at all (Python `None`)
for every dataset identifier outside the recognized set, rather than
raising an error or substituting a default. -/
theorem get_model_unknown_dataset_none (dataset trainerMode : String)
    (h : dataset ∉ recognizedDatasets) :
    get_model dataset trainerMode = none := by
  simp only [recognizedDatasets, List.mem_cons, List.not_mem_nil, or_false,
    not_or] at h
  obtain ⟨h1, h2, h3, h4, h5, h6, h7⟩ := h
  simp [get_model, h1, h2, h3, h4, h5, h6, h7]

theorem get_model_unknown_dataset_none_witness :
    "MNIST" ∉ recognizedDatasets ∧ get_model "MNIST" "der" = none :=
  ⟨by decide, get_model_unknown_dataset_none "MNIST" "der" (by decide)⟩

theorem linApply_length (l : Lin) (v : List ℤ)
    (h1 : l.weight.length = l.outFeatures) (h2 : l.bias.length = l.outFeatures) :
    (linApply l v).length = l.outFeatures := by
  simp [linApply, h1, h2]

theorem derLogits_eq (heads : List Lin) (x : List ℤ) :
    ∀ (encoders : List (List ℤ → List ℤ)) (i : ℕ),
      i + encoders.length ≤ heads.length →
      derLogits encoders heads i x =
        some ((encoders.zip (heads.drop i)).map fun p => linApply p.2 (p.1 x)) := by
  intro encoders
  induction encoders with
  | nil =>
    intro i h
    simp [derLogits]
  | cons e es ih =>
    intro i h
    have hi : i < heads.length := by
      simp only [List.length_cons] at h
      omega
    have hdrop : heads.drop i = heads[i] :: heads.drop (i + 1) :=
      List.drop_eq_getElem_cons hi
    have hrec := ih (i + 1) (by simp only [List.length_cons] at h; omega)
    simp only [derLogits, List.getElem?_eq_getElem hi, hrec, Option.map_some',
      hdrop, List.zip_cons_cons, List.map_cons]

/-- C4: in der mode, with as many heads as branches (they are added
sequentially, one per task), `forward(x)` succeeds and its output is the
concatenation, in branch-creation order, of `head_i` applied to branch
`i`'s feature output on the shared input `x`; its width is the sum of the
heads' configured class counts. -/
theorem der_forward_concat_heads (encoders : List (List ℤ → List ℤ)) (heads : List Lin)
    (x : List ℤ) (hlen : encoders.length = heads.length)
    (hwf : ∀ h ∈ heads, h.weight.length = h.outFeatures ∧ h.bias.length = h.outFeatures) :
    ∃ out, derForward encoders heads x = some out ∧
      out = ((encoders.zip heads).map fun p => linApply p.2 (p.1 x)).flatten ∧
      out.length = (heads.map Lin.outFeatures).sum := by
  refine ⟨_, ?_, rfl, ?_⟩
  · unfold derForward
    rw [derLogits_eq heads x encoders 0 (by omega)]
    simp
  · rw [List.length_flatten, List.map_map]
    have : ∀ (es : List (List ℤ → List ℤ)) (hs : List Lin), es.length = hs.length →
        (∀ h ∈ hs, h.weight.length = h.outFeatures ∧ h.bias.length = h.outFeatures) →
        ((es.zip hs).map (List.length ∘ fun p => linApply p.2 (p.1 x))) =
          hs.map Lin.outFeatures := by
      intro es
      induction es with
      | nil =>
        intro hs hl _
        cases hs with
        | nil => simp
        | cons h hs => simp at hl
      | cons e es ih =>
        intro hs hl hw
        cases hs with
        | nil => simp at hl
        | cons hd hs =>
          simp only [List.zip_cons_cons, List.map_cons, Function.comp_apply]
          have hwd := hw hd (by simp)
          rw [linApply_length hd (e x) hwd.1 hwd.2,
            ih hs (by simpa using hl) (fun h hm => hw h (by simp [hm]))]
    rw [this encoders heads hlen hwf]

theorem der_forward_concat_heads_witness :
    ([demoEnc1, demoEnc2].length = [demoLin1, demoLin2].length) ∧
    (∀ h ∈ [demoLin1, demoLin2],
      h.weight.length = h.outFeatures ∧ h.bias.length = h.outFeatures) ∧
    ∃ out, derForward [demoEnc1, demoEnc2] [demoLin1, demoLin2] [2, 3] = some out ∧
      out = (([demoEnc1, demoEnc2].zip [demoLin1, demoLin2]).map
        fun p => linApply p.2 (p.1 [2, 3])).flatten ∧
      out.length = ([demoLin1, demoLin2].map Lin.outFeatures).sum :=
  ⟨rfl, by decide,
    der_forward_concat_heads [demoEnc1, demoEnc2] [demoLin1, demoLin2] [2, 3] rfl (by decide)⟩

theorem aligned_getElem (w : List (List ℝ)) (start endIdx : ℕ) (g : ℝ)
    (hs : start ≤ endIdx) (he : endIdx ≤ w.length) (i : ℕ) :
    (w.take start ++
        ((w.drop start).take (endIdx - start)).map (fun r => r.map fun x => x * g) ++
        w.drop endIdx)[i]? =
      if i < start then w[i]?
      else if i < endIdx then w[i]?.map fun r => r.map fun x => x * g
      else w[i]? := by
  have hsw : start ≤ w.length := le_trans hs he
  have hlenA : (w.take start).length = start := by
    rw [List.length_take]
    omega
  have hlenB : (((w.drop start).take (endIdx - start)).map
      (fun r => r.map fun x => x * g)).length = endIdx - start := by
    rw [List.length_map, List.length_take, List.length_drop]
    omega
  have hlenAB : (w.take start ++
      ((w.drop start).take (endIdx - start)).map (fun r => r.map fun x => x * g)).length =
      endIdx := by
    rw [List.length_append, hlenA, hlenB]
    omega
  by_cases h1 : i < start
  · rw [if_pos h1, List.getElem?_append_left (by rw [hlenAB]; omega),
      List.getElem?_append_left (by rw [hlenA]; omega), List.getElem?_take_of_lt h1]
  · rw [if_neg h1]
    by_cases h2 : i < endIdx
    · rw [if_pos h2, List.getElem?_append_left (by rw [hlenAB]; omega),
        List.getElem?_append_right (by rw [hlenA]; omega), hlenA, List.getElem?_map,
        List.getElem?_take_of_lt (by omega), List.getElem?_drop,
        show start + (i - start) = i by omega]
    · rw [if_neg h2, List.getElem?_append_right (by rw [hlenAB]; omega), hlenAB,
        List.getElem?_drop, show endIdx + (i - endIdx) = i by omega]

theorem weightAlign_eq_ok (w : List (List ℝ)) (start endIdx : ℕ)
    (hnz : newMean w start endIdx ≠ 0) :
    weightAlign w start endIdx = Except.ok
      (w.take start ++
        ((w.drop start).take (endIdx - start)).map
          (fun r => r.map fun x => x * (prevMean w start / newMean w start endIdx)) ++
        w.drop endIdx) := by
  simp [weightAlign, hnz]

/-- C3: the code violates the claim.  With all new-class rows zero,
`mean_new` is zero and `weight_align` raises `ZeroDivisionError` at
`gamma = mean_prev/mean_new` (plain Python float division, no guard):
the rescale is not a guarded no-op. -/
theorem weight_align_zero_mean_new_raises :
    weightAlign [[(1 : ℝ), 1], [0, 0]] 1 2 =
      Except.error "ZeroDivisionError: float division by zero" := by
  have h1 : newMean [[(1 : ℝ), 1], [0, 0]] 1 2 = meanR [rowNorm [(0 : ℝ), 0]] := rfl
  have h : newMean [[(1 : ℝ), 1], [0, 0]] 1 2 = 0 := by
    rw [h1]
    simp [meanR, rowNorm]
  simp [weightAlign, h]

/-- C5: with a nonzero mean new-row norm, `weight_align` leaves rows
`[0, start)` of the fc weight matrix unchanged and multiplies each row in
`[start, endIdx)` by exactly `mean_prev / mean_new` — the mean L2 norm of
the previously-seen rows over that of the new rows — writing the rescaled
rows back in place. -/
theorem weight_align_rescales_new_rows (w : List (List ℝ)) (start endIdx : ℕ)
    (hs : start ≤ endIdx) (he : endIdx ≤ w.length)
    (hnz : newMean w start endIdx ≠ 0) :
    ∃ w2, weightAlign w start endIdx = Except.ok w2 ∧
      (∀ i, i < start → w2[i]? = w[i]?) ∧
      (∀ i, start ≤ i → i < endIdx →
        w2[i]? = w[i]?.map fun r =>
          r.map fun x => x * (prevMean w start / newMean w start endIdx)) := by
  refine ⟨_, weightAlign_eq_ok w start endIdx hnz, ?_, ?_⟩
  · intro i hi
    rw [aligned_getElem w start endIdx _ hs he i, if_pos hi]
  · intro i hi1 hi2
    rw [aligned_getElem w start endIdx _ hs he i, if_neg (by omega), if_pos hi2]

theorem rowNorm_single (a : ℝ) (h : 0 ≤ a) : rowNorm [a] = a := by
  simp [rowNorm]
  exact Real.sqrt_mul_self h

theorem newMean_demo : newMean [[(3 : ℝ)], [4], [9]] 1 2 = 4 := by
  have h1 : newMean [[(3 : ℝ)], [4], [9]] 1 2 = meanR [rowNorm [(4 : ℝ)]] := rfl
  rw [h1, rowNorm_single 4 (by norm_num)]
  simp [meanR]

theorem weight_align_rescales_new_rows_witness :
    (1 : ℕ) ≤ 2 ∧ (2 : ℕ) ≤ ([[(3 : ℝ)], [4], [9]] : List (List ℝ)).length ∧
      newMean [[(3 : ℝ)], [4], [9]] 1 2 ≠ 0 ∧
      ∃ w2, weightAlign [[(3 : ℝ)], [4], [9]] 1 2 = Except.ok w2 ∧
        (∀ i, i < 1 → w2[i]? = ([[(3 : ℝ)], [4], [9]] : List (List ℝ))[i]?) ∧
        (∀ i, 1 ≤ i → i < 2 →
          w2[i]? = ([[(3 : ℝ)], [4], [9]] : List (List ℝ))[i]?.map fun r =>
            r.map fun x => x *
              (prevMean [[(3 : ℝ)], [4], [9]] 1 / newMean [[(3 : ℝ)], [4], [9]] 1 2)) :=
  ⟨by norm_num, by norm_num, by rw [newMean_demo]; norm_num,
    weight_align_rescales_new_rows [[(3 : ℝ)], [4], [9]] 1 2 (by norm_num) (by norm_num)
      (by rw [newMean_demo]; norm_num)⟩

/-- C9: `weight_align` modifies only rows `[start, endIdx)` of the fc
weight matrix: rows at index `endIdx` and beyond, the fc bias vector, and
every other model parameter are unchanged. -/
theorem weight_align_frame (m : ModelState) (endIdx stepSize : ℕ)
    (he : endIdx ≤ m.fcWeight.length)
    (hnz : newMean m.fcWeight (endIdx - stepSize) endIdx ≠ 0) :
    ∃ m2, modelWeightAlign m endIdx stepSize = Except.ok m2 ∧
      m2.fcBias = m.fcBias ∧ m2.otherParams = m.otherParams ∧
      ∀ i, endIdx ≤ i → m2.fcWeight[i]? = m.fcWeight[i]? := by
  unfold modelWeightAlign
  rw [weightAlign_eq_ok m.fcWeight (endIdx - stepSize) endIdx hnz]
  refine ⟨_, rfl, rfl, rfl, ?_⟩
  intro i hi
  show (m.fcWeight.take (endIdx - stepSize) ++
      ((m.fcWeight.drop (endIdx - stepSize)).take (endIdx - (endIdx - stepSize))).map
        (fun r => r.map fun x => x *
          (prevMean m.fcWeight (endIdx - stepSize) /
            newMean m.fcWeight (endIdx - stepSize) endIdx)) ++
      m.fcWeight.drop endIdx)[i]? = m.fcWeight[i]?
  rw [aligned_getElem m.fcWeight (endIdx - stepSize) endIdx _ (by omega) he i,
    if_neg (by omega), if_neg (by omega)]

theorem weight_align_frame_witness :
    2 ≤ demoModel.fcWeight.length ∧
      newMean demoModel.fcWeight (2 - 1) 2 ≠ 0 ∧
      ∃ m2, modelWeightAlign demoModel 2 1 = Except.ok m2 ∧
        m2.fcBias = demoModel.fcBias ∧ m2.otherParams = demoModel.otherParams ∧
        ∀ i, 2 ≤ i → m2.fcWeight[i]? = demoModel.fcWeight[i]? :=
  ⟨by norm_num [demoModel], by show newMean [[(3 : ℝ)], [4], [9]] 1 2 ≠ 0; rw [newMean_demo]; norm_num,
    weight_align_frame demoModel 2 1 (by norm_num [demoModel])
      (by show newMean [[(3 : ℝ)], [4], [9]] 1 2 ≠ 0; rw [newMean_demo]; norm_num)⟩

theorem trainLoss_cex_eval :
    trainLoss 1 true 5 8 cexBatch = Real.log (1 + (1 + Real.exp 1)) - 1 := by
  have hc : (cexBatch.filter fun p => decide (5 ≤ p.2)) = cexBatch := rfl
  have hp : (cexBatch.filter fun p => decide (p.2 < 5)) = [] := rfl
  have hm : (cexBatch.map fun p => (sliceL 5 8 p.1, p.2 % (8 - 5))) =
      [([(0 : ℝ), 0, 1], 2)] := rfl
  simp only [trainLoss, hc, hp, hm]
  norm_num [cexBatch, ceLoss, nll, Real.exp_zero, List.getD]

theorem specSepLoss_cex_eval :
    specSepLoss 5 8 cexBatch = Real.log (1 + (1 + Real.exp 1)) := by
  have hc : currExamples 5 cexBatch = cexBatch := rfl
  have hp : prevExamples 5 cexBatch = [] := rfl
  have hm : (cexBatch.map fun p => (sliceL 5 8 p.1, p.2 - 5)) =
      [([(0 : ℝ), 0, 1], 0)] := rfl
  simp only [specSepLoss, prevRows, hc, hp, hm]
  norm_num [cexBatch, ceLoss, nll, Real.exp_zero, List.getD]

/-- C1: counterexample to the claim as stated.  With boundary 5, end 8 and
a single current-task example labelled 5, the code feeds the restricted
cross-entropy the target `5 % (8-5) = 2` while the claim's formula uses
`5 - 5 = 0`, and the two losses differ. -/
theorem ssil_loss_remap_cex :
    trainLoss 1 true 5 8 cexBatch ≠ specSepLoss 5 8 cexBatch := by
  rw [trainLoss_cex_eval, specSepLoss_cex_eval]
  intro h
  linarith

/-- C1 (amended): in separated-softmax mode with task index > 0, the batch
loss equals `(curr_num * CE(columns [boundary, end), labels mod
(end - boundary)) + prev_num * CE(columns [0, boundary), unmodified
labels)) / (curr_num + prev_num)` — the current-task labels are remapped by
`label % (end - boundary)`, which agrees with `label - boundary` exactly
when `boundary` is a multiple of the task size `end - boundary`; with zero
previous-task examples the previous-task term contributes zero. -/
theorem ssil_loss_separated_formula (tasknum mid endIdx : ℕ)
    (batch : List (List ℝ × ℕ)) (ht : 0 < tasknum) :
    trainLoss tasknum true mid endIdx batch =
      (((currExamples mid batch).length : ℝ) * ceLoss (currRows mid endIdx batch) +
        ((prevExamples mid batch).length : ℝ) * ceLoss (prevRows mid batch)) /
      (((currExamples mid batch).length : ℝ) + ((prevExamples mid batch).length : ℝ)) := by
  unfold trainLoss
  rw [if_pos (show 0 < tasknum ∧ true = true from ⟨ht, rfl⟩)]
  simp only [currExamples, prevExamples, currRows, prevRows]
  by_cases hp : 0 < (batch.filter fun p => decide (p.2 < mid)).length
  · rw [if_pos hp]
    push_cast
    ring
  · rw [if_neg hp]
    have h0 : (batch.filter fun p => decide (p.2 < mid)).length = 0 := by omega
    rw [h0]
    push_cast
    ring

theorem ssil_loss_separated_formula_witness :
    0 < 1 ∧
      trainLoss 1 true 5 8 cexBatch =
        (((currExamples 5 cexBatch).length : ℝ) * ceLoss (currRows 5 8 cexBatch) +
          ((prevExamples 5 cexBatch).length : ℝ) * ceLoss (prevRows 5 cexBatch)) /
        (((currExamples 5 cexBatch).length : ℝ) + ((prevExamples 5 cexBatch).length : ℝ)) :=
  ⟨by norm_num, ssil_loss_separated_formula 1 5 8 cexBatch (by norm_num)⟩
